import Mathlib

/-!
Verification development for the Monexa personal-finance dashboard
(finance_service.py, main.py, llm_service.py).

Modelling conventions:
* Python/numpy floats are modelled as exact rationals (`ℚ`); the special
  values NaN, +inf and -inf produced by numpy arithmetic are modelled by the
  inductive type `FV` below.  Signed zero is not modelled.
* A pandas column is a `List (Option ℚ)`; `none` models a NaN gap.
* The transcendental tail of `calculate_expected_return` (log/exp) is
  modelled over `ℝ`; its float result is `Option ℝ`, with `none` for NaN.
* Network calls (yfinance, forex rates) are modelled as explicit function
  parameters; an `Option` result with `none` models a raised exception
  that the source catches.
-/

/-- Model of an IEEE double as seen by the numpy paths of the code:
a finite rational, one of the infinities, or NaN. -/
inductive FV where
  | val : ℚ → FV
  | posInf : FV
  | negInf : FV
  | nan : FV
deriving DecidableEq

/-- Is this float NaN? -/
def FV.isNan : FV → Bool
  | FV.nan => true
  | _ => false

/-- Is this float +inf? -/
def FV.isPosInf : FV → Bool
  | FV.posInf => true
  | _ => false

/-- Is this float -inf? -/
def FV.isNegInf : FV → Bool
  | FV.negInf => true
  | _ => false

/-- IEEE division of two finite doubles: division by zero yields an
infinity of the numerator's sign, and 0/0 yields NaN. -/
def floatDiv (a b : ℚ) : FV :=
  if b = 0 then
    if a = 0 then FV.nan else if 0 < a then FV.posInf else FV.negInf
  else FV.val (a / b)

/-- IEEE subtraction on the float model. -/
def FV.sub : FV → FV → FV
  | FV.nan, _ => FV.nan
  | _, FV.nan => FV.nan
  | FV.val a, FV.val b => FV.val (a - b)
  | FV.val _, FV.posInf => FV.negInf
  | FV.val _, FV.negInf => FV.posInf
  | FV.posInf, FV.val _ => FV.posInf
  | FV.negInf, FV.val _ => FV.negInf
  | FV.posInf, FV.negInf => FV.posInf
  | FV.negInf, FV.posInf => FV.negInf
  | FV.posInf, FV.posInf => FV.nan
  | FV.negInf, FV.negInf => FV.nan

/-- IEEE division on the float model (sign of zero not modelled:
an infinity divided by zero is taken with the positive sign). -/
def FV.div : FV → FV → FV
  | FV.nan, _ => FV.nan
  | _, FV.nan => FV.nan
  | FV.val a, FV.val b => floatDiv a b
  | FV.val _, FV.posInf => FV.val 0
  | FV.val _, FV.negInf => FV.val 0
  | FV.posInf, FV.val b => if 0 ≤ b then FV.posInf else FV.negInf
  | FV.negInf, FV.val b => if 0 ≤ b then FV.negInf else FV.posInf
  | FV.posInf, FV.posInf => FV.nan
  | FV.posInf, FV.negInf => FV.nan
  | FV.negInf, FV.posInf => FV.nan
  | FV.negInf, FV.negInf => FV.nan

/-- IEEE multiplication on the float model. -/
def FV.mul : FV → FV → FV
  | FV.nan, _ => FV.nan
  | _, FV.nan => FV.nan
  | FV.val a, FV.val b => FV.val (a * b)
  | FV.val a, FV.posInf => if a = 0 then FV.nan else if 0 < a then FV.posInf else FV.negInf
  | FV.val a, FV.negInf => if a = 0 then FV.nan else if 0 < a then FV.negInf else FV.posInf
  | FV.posInf, FV.val b => if b = 0 then FV.nan else if 0 < b then FV.posInf else FV.negInf
  | FV.negInf, FV.val b => if b = 0 then FV.nan else if 0 < b then FV.negInf else FV.posInf
  | FV.posInf, FV.posInf => FV.posInf
  | FV.posInf, FV.negInf => FV.negInf
  | FV.negInf, FV.posInf => FV.negInf
  | FV.negInf, FV.negInf => FV.posInf

/-- pandas `Series.ffill` helper: `acc` is the most recent valid value
seen so far (`none` before any valid value). -/
def ffillAux (acc : Option ℚ) : List (Option ℚ) → List (Option ℚ)
  | [] => []
  | x :: xs => (x.or acc) :: ffillAux (x.or acc) xs

/-- pandas `fillna(method='ffill')`: each NaN becomes the most recent
prior valid value; leading NaNs stay NaN. -/
def ffill (l : List (Option ℚ)) : List (Option ℚ) := ffillAux none l

/-- First valid (non-NaN) value of a column, if any. -/
def firstValid (l : List (Option ℚ)) : Option ℚ := (l.filterMap id).head?

/-- Last valid value among the first `i+1` entries of a column, if any. -/
def lastValidUpTo (l : List (Option ℚ)) (i : ℕ) : Option ℚ :=
  ((l.take (i + 1)).filterMap id).getLast?

/-- pandas `fillna(method='bfill')`: each NaN becomes the next following
valid value; trailing NaNs stay NaN. -/
def bfill : List (Option ℚ) → List (Option ℚ)
  | [] => []
  | x :: xs => (x.or (firstValid xs)) :: bfill xs

/-- pandas `Series.mean()` with default `skipna=True`: mean of the valid
entries, NaN if there are none. -/
def pandasMean (l : List (Option ℚ)) : FV :=
  let v := l.filterMap id
  if v.length = 0 then FV.nan else FV.val (v.sum / v.length)

/-- pandas `Series.max()` with default `skipna=True`. -/
def pandasMax (l : List (Option ℚ)) : FV :=
  match l.filterMap id with
  | [] => FV.nan
  | x :: xs => FV.val (xs.foldl max x)

/-- pandas `Series.min()` with default `skipna=True`. -/
def pandasMin (l : List (Option ℚ)) : FV :=
  match l.filterMap id with
  | [] => FV.nan
  | x :: xs => FV.val (xs.foldl min x)

/-- `series[-1]` on a column: the last entry, NaN when it is a gap. -/
def lastFV (l : List (Option ℚ)) : FV :=
  match l.getLast? with
  | some (some q) => FV.val q
  | _ => FV.nan

/-- `series[0]` on a column: the first entry, NaN when it is a gap. -/
def headFV (l : List (Option ℚ)) : FV :=
  match l.head? with
  | some (some q) => FV.val q
  | _ => FV.nan

/-!
Embedding of `src/finance_service.py`.
-/

/-- `convert_to_inr` (finance_service.py lines 25-34).  `getRate` models
`cr.get_rate`; a `none` result models a raised exception, which the
source catches and answers with the original amount. -/
def convert_to_inr (getRate : String → String → Option ℚ)
    (amount : ℚ) (from_currency : String) : ℚ :=
  if from_currency = "INR" then amount
  else
    match getRate from_currency "INR" with
    | some rate => amount * rate
    | none => amount

/-- `np.log` applied to one entry of the ratio series
`prices / prices.shift(1)`, keeping only the information the rest of the
pipeline uses: a retained finite observation `ln r` is represented by its
ratio `r` (`FV.val r`, necessarily `0 < r`); `log 0 = -inf`,
`log (+inf) = +inf`, and the log of a negative number, of `-inf` or of
NaN is NaN. -/
def logFV : FV → FV
  | FV.val r => if 0 < r then FV.val r else if r = 0 then FV.negInf else FV.nan
  | FV.posInf => FV.posInf
  | FV.negInf => FV.nan
  | FV.nan => FV.nan

/-- One entry of `prices / prices.shift(1)`: the shifted entry is `none`
(NaN) at the first position. -/
def shiftDiv (cur : ℚ) : Option ℚ → FV
  | none => FV.nan
  | some prev => floatDiv cur prev

/-- The observation list
`np.log(prices / prices.shift(1)).dropna()` of
`calculate_expected_return` (finance_service.py lines 51-52), where
`prices = data['Close'].dropna()`.  `dropna` removes NaN but keeps
infinities. -/
def codeObs (close : List (Option ℚ)) : List FV :=
  let prices := close.filterMap id
  let shifted : List (Option ℚ) := none :: prices.dropLast.map some
  ((List.zipWith shiftDiv prices shifted).map logFV).filter
    (fun x => !x.isNan)

/-- Value over `ℝ` of a retained observation: `ln r` for a finite ratio
`r`.  The infinite cases never reach this function (they are filtered in
`annualizeClamped`); their value here is irrelevant. -/
noncomputable def obsLog : FV → ℝ
  | FV.val r => Real.log (r : ℝ)
  | _ => 0

/-- Lines 58-62 of finance_service.py on the retained observation list:
`mu = mean(log_returns)`, `annual = (exp(mu*252)-1)*100`,
`max(min(annual, 100.0), -100.0)`.  Float semantics when infinities are
present: a +inf observation (no -inf) makes the mean +inf and the clamp
answers 100; a -inf observation (no +inf) makes the mean -inf,
`exp` gives 0 and the clamp answers -100; with both, the mean is NaN and
Python's `max`/`min` propagate it (result NaN, modelled by `none`). -/
noncomputable def annualizeClamped (obs : List FV) : Option ℝ :=
  if obs.any FV.isPosInf then
    if obs.any FV.isNegInf then none else some 100
  else if obs.any FV.isNegInf then some (-100)
  else
    some (max (min ((Real.exp ((obs.map obsLog).sum / obs.length * 252) - 1) * 100) 100) (-100))

/-- `calculate_expected_return` (finance_service.py lines 36-66), on the
`Close` column of its input frame.  `none` models a NaN result. -/
noncomputable def calculate_expected_return (close : List (Option ℚ)) : Option ℝ :=
  if close.isEmpty then some 0
  else
    let log_returns := codeObs close
    if log_returns.length < 30 then some 0
    else annualizeClamped log_returns

/-- The OHLCV part of the yfinance history frame: the list of column
names actually present, the five data columns, and the number of rows.
When a required column is absent its data field is unused. -/
structure TickerHist where
  columns : List String
  openCol : List (Option ℚ)
  highCol : List (Option ℚ)
  lowCol : List (Option ℚ)
  closeCol : List (Option ℚ)
  volumeCol : List (Option ℚ)
  nrows : ℕ

/-- Well-formedness of a history frame: every data column has one entry
per row. -/
def TickerHist.WF (h : TickerHist) : Prop :=
  h.openCol.length = h.nrows ∧ h.highCol.length = h.nrows ∧
  h.lowCol.length = h.nrows ∧ h.closeCol.length = h.nrows ∧
  h.volumeCol.length = h.nrows

/-- The fields of `stock.info` that `fetch_single_ticker` reads, each
already resolved with its `info.get` default (`currency` defaults to
"USD", `longName` falls back to `shortName` and then to the ticker,
`sector`/`industry` default to "N/A"). -/
structure TickerBasicInfo where
  currency : String
  longName : String
  sector : String
  industry : String

/-- `required_cols` of finance_service.py line 104. -/
def requiredCols : List String := ["Open", "High", "Low", "Close", "Volume"]

/-- Multiplication of the four price columns by a conversion rate
(finance_service.py lines 115-116); `Volume` is not converted and NaN
entries stay NaN. -/
def convertHist (rate : ℚ) (h : TickerHist) : TickerHist :=
  { h with
    openCol := h.openCol.map (Option.map (· * rate))
    highCol := h.highCol.map (Option.map (· * rate))
    lowCol := h.lowCol.map (Option.map (· * rate))
    closeCol := h.closeCol.map (Option.map (· * rate)) }

/-- `fillna(method='ffill')` then `fillna(method='bfill')` on the whole
frame (finance_service.py lines 129-131), applied column-wise. -/
def cleanHist (h : TickerHist) : TickerHist :=
  { h with
    openCol := bfill (ffill h.openCol)
    highCol := bfill (ffill h.highCol)
    lowCol := bfill (ffill h.lowCol)
    closeCol := bfill (ffill h.closeCol)
    volumeCol := bfill (ffill h.volumeCol) }

/-- The per-ticker record returned by `fetch_single_ticker`
(finance_service.py lines 133-146). -/
structure TickerData where
  ticker : String
  name : String
  currency : String
  current_price : FV
  price_change : FV
  high_52week : FV
  low_52week : FV
  avg_volume : FV
  expected_return : Option ℝ
  historical_data : TickerHist
  sector : String
  industry : String

/-- `fetch_single_ticker` (finance_service.py lines 91-149).
`hasNS` models `'.NS' in ticker`; `info` and `hist` are the results of
the yfinance calls; `getRate` models `cr.get_rate`, with `none` for a
raised exception.  Any exception inside the body is caught by the
enclosing `except` and turned into `None`; in particular a rate-lookup
failure for a non-INR ticker makes the whole fetch return `none`.  The
source's locals `currency`, `current`, `start` and `change` are
inlined. -/
noncomputable def fetch_single_ticker (ticker : String) (hasNS : Bool)
    (info : TickerBasicInfo) (hist : TickerHist)
    (getRate : String → String → Option ℚ) : Option TickerData :=
  if hist.nrows = 0 then none
  else if !(requiredCols.all (fun c => hist.columns.contains c)) then none
  else
    (if (if hasNS then "INR" else info.currency) = "INR" then some hist
     else (getRate (if hasNS then "INR" else info.currency) "INR").map
       (fun r => convertHist r hist)).map
      (fun h2 =>
        { ticker := ticker
          name := info.longName
          currency := "INR"
          current_price := lastFV h2.closeCol
          price_change := FV.mul (FV.div (FV.sub (lastFV h2.closeCol)
            (headFV h2.closeCol)) (headFV h2.closeCol)) (FV.val 100)
          high_52week := pandasMax h2.highCol
          low_52week := pandasMin h2.lowCol
          avg_volume := pandasMean h2.volumeCol
          expected_return := calculate_expected_return h2.closeCol
          historical_data := cleanHist h2
          sector := info.sector
          industry := info.industry })

/-- Assignment `results[ticker] = data` on a Python dict modelled as an
association list in insertion order: an existing key is updated in
place, a new key is appended. -/
def dictInsert {α : Type} (l : List (String × α)) (k : String) (v : α) :
    List (String × α) :=
  match l with
  | [] => [(k, v)]
  | (k1, v1) :: rest =>
    if k1 = k then (k, v) :: rest else (k1, v1) :: dictInsert rest k v

/-- The dictionary comprehension of finance_service.py lines 154-157:
one `executor.submit` per element of `tickers` (duplicates included),
keyed by the distinct future objects, modelled by their submission
indices. -/
def future_to_ticker (tickers : List String) : List (ℕ × String) :=
  tickers.enum

/-- `max_workers=min(len(tickers), 5)` (finance_service.py line 153). -/
def max_workers (tickers : List String) : ℕ := min tickers.length 5

/-- The collection loop of `get_financial_data` over one completion
order: each completed task whose fetch produced data is merged into the
result dict; failed tasks are skipped. -/
def collectResults (fetch : String → Option TickerData)
    (order : List String) : List (String × TickerData) :=
  order.foldl
    (fun res t =>
      match fetch t with
      | some d => dictInsert res t d
      | none => res)
    []

/-- One fetch task of `get_financial_data`: the provider (yfinance)
either raises (`none`) or yields the `'.NS' in ticker` flag, the info
record and the history frame, which `fetch_single_ticker` consumes. -/
noncomputable def fetchOutcome
    (provider : String → Option (Bool × TickerBasicInfo × TickerHist))
    (getRate : String → String → Option ℚ) (t : String) :
    Option TickerData :=
  match provider t with
  | none => none
  | some (ns, info, hist) => fetch_single_ticker t ns info hist getRate

/-- `get_financial_data` (finance_service.py lines 72-168) for a list
input: empty input returns an empty dict before any work is dispatched;
otherwise one task runs per list element and results are merged in
completion order `order` (a permutation of `tickers`). -/
noncomputable def get_financial_data
    (provider : String → Option (Bool × TickerBasicInfo × TickerHist))
    (getRate : String → String → Option ℚ)
    (tickers : List String) (order : List String) :
    List (String × TickerData) :=
  if tickers.isEmpty then []
  else collectResults (fetchOutcome provider getRate) order

/-!
Embedding of the projection calculator of `src/main.py` (lines 576-599)
and of the fallback projections of `src/llm_service.py` (lines 104-121).
-/

/-- `conservative_rate = 0.08` (main.py line 578). -/
def conservative_rate : ℚ := 8 / 100

/-- `moderate_rate = 0.12` (main.py line 579). -/
def moderate_rate : ℚ := 12 / 100

/-- `aggressive_rate = 0.15` (main.py line 580). -/
def aggressive_rate : ℚ := 15 / 100

/-- `calculate_future_value` (main.py lines 582-586): the ordinary
annuity future value `monthly_amount * ((1+rate/12)^(years*12) - 1) /
(rate/12)`. -/
def calculate_future_value (monthly_amount rate : ℚ) (years : ℕ) : ℚ :=
  let monthly_rate := rate / 12
  let n_months := years * 12
  monthly_amount * ((1 + monthly_rate) ^ n_months - 1) / monthly_rate

/-- `months = range(0, projection_years * 12 + 1)` (main.py line 593). -/
def projectionMonths (projection_years : ℕ) : List ℕ :=
  List.range (projection_years * 12 + 1)

/-- The projection DataFrame of main.py lines 594-599: the shared month
axis and the three scenario series. -/
structure ProjectionsFrame where
  month : List ℕ
  conservative : List ℚ
  moderate : List ℚ
  aggressive : List ℚ

/-- The DataFrame built at main.py lines 594-599: for each scenario,
value at month `i` is `monthly_investment * i * (1 + rate/12)**i`. -/
def projections (monthly_investment : ℚ) (projection_years : ℕ) :
    ProjectionsFrame :=
  let months := projectionMonths projection_years
  { month := months
    conservative :=
      months.map (fun (i : ℕ) => monthly_investment * (i : ℚ) * (1 + conservative_rate / 12) ^ i)
    moderate :=
      months.map (fun (i : ℕ) => monthly_investment * (i : ℚ) * (1 + moderate_rate / 12) ^ i)
    aggressive :=
      months.map (fun (i : ℕ) => monthly_investment * (i : ℚ) * (1 + aggressive_rate / 12) ^ i) }

/-- `conservative_return = 0.08` (llm_service.py line 107). -/
def conservative_return : ℚ := 8 / 100

/-- `moderate_return = 0.12` (llm_service.py line 108). -/
def moderate_return : ℚ := 12 / 100

/-- `aggressive_return = 0.15` (llm_service.py line 109). -/
def aggressive_return : ℚ := 15 / 100

/-- The three projected lump figures of `_local_fallback_response`
(llm_service.py lines 105-113):
`future_x = monthly_investment * 12 * ((1 + x_return) ** years)`. -/
def local_fallback_projections (investment_amount : ℚ) (horizon : ℕ) :
    ℚ × ℚ × ℚ :=
  let monthly_investment := investment_amount
  let years := horizon
  ( monthly_investment * 12 * (1 + conservative_return) ^ years
  , monthly_investment * 12 * (1 + moderate_return) ^ years
  , monthly_investment * 12 * (1 + aggressive_return) ^ years )

/-- Dispatch of `get_llm_response` (llm_service.py lines 135-180): when
the client is not configured, the local fallback is returned; when the
remote call raises (`none`), the local fallback is returned; otherwise
the remote text is returned. -/
def get_llm_response (genaiConfigured : Bool) (remote : Option String)
    (fallback : String) : String :=
  if genaiConfigured then
    match remote with
    | some text => text
    | none => fallback
  else fallback

/-!
Worker-pool trace model for the concurrency bound of
`get_financial_data`.  `ThreadPoolExecutor(max_workers=w)` guarantees
that at every instant at most `w` submitted tasks have started and not
yet finished; an execution is modelled as a list of start/finish events
and that guarantee as the admissibility check below.
-/

/-- One scheduling event of the executor: task `i` starts running, or
task `i` finishes. -/
inductive PoolEv where
  | start : ℕ → PoolEv
  | done : ℕ → PoolEv
deriving DecidableEq

/-- Number of in-flight tasks after one event. -/
def stepCount (n : ℕ) : PoolEv → ℕ
  | PoolEv.start _ => n + 1
  | PoolEv.done _ => n - 1

/-- In-flight task count after a list of events, starting from `init`. -/
def runningAfter (init : ℕ) (t : List PoolEv) : ℕ :=
  t.foldl stepCount init

/-- The executor's guarantee, as a check along the trace: starting from
`init` in-flight tasks, the count never exceeds `w`. -/
def admissibleFrom (w : ℕ) : ℕ → List PoolEv → Bool
  | _, [] => true
  | init, e :: rest =>
    let n2 := stepCount init e
    decide (n2 ≤ w) && admissibleFrom w n2 rest

/-- A trace the pool of width `w` can produce: the in-flight count stays
at most `w` throughout, starting from zero. -/
def poolAdmissible (w : ℕ) (t : List PoolEv) : Bool :=
  admissibleFrom w 0 t

/-!
Definitions taken from the spec's words (not from the source), used to
state the claims that compare the code against the spec's description.
-/

/-- Modelled from the spec (section 4.2): the valid log-return pairs are
the adjacent pairs of the original series in which both closes are
present and strictly positive; each contributes the observation
`ln(close_t / close_t1)`, represented by its ratio. -/
def specAdjacentObs (close : List (Option ℚ)) : List FV :=
  (close.zip close.tail).filterMap
    (fun pc =>
      match pc with
      | (some p, some c) =>
        if 0 < p then if 0 < c then some (FV.val (c / p)) else none else none
      | _ => none)

/-- Modelled from the spec (section 8, property 2): the number of valid
adjacent log-return pairs of a series. -/
def specValidPairsCount (close : List (Option ℚ)) : ℕ :=
  (specAdjacentObs close).length

/-- Direct characterisation of the code's observation list: adjacent
pairs of the gap-compacted series, each divided and log-classified, NaN
outcomes dropped.  Used to state the amended form of the spec's
log-return claim. -/
def obsOverCompactedPairs (close : List (Option ℚ)) : List FV :=
  let xs := close.filterMap id
  (((xs.zip xs.tail).map (fun pc => logFV (floatDiv pc.2 pc.1))).filter
    (fun x => !x.isNan))

/-- A 62-entry close series alternating present values `2^k` with gaps:
every adjacent pair of the original series contains a gap, yet the
gap-compacted series is `1, 2, 4, ..., 2^30`, yielding 30 retained
log-return observations of ratio 2. -/
def gapDoublingSeries : List (Option ℚ) :=
  [some 1, none, some 2, none, some 4, none, some 8, none, some 16, none, some 32, none, some 64, none, some 128, none, some 256, none, some 512, none, some 1024, none, some 2048, none, some 4096, none, some 8192, none, some 16384, none, some 32768, none, some 65536, none, some 131072, none, some 262144, none, some 524288, none, some 1048576, none, some 2097152, none, some 4194304, none, some 8388608, none, some 16777216, none, some 33554432, none, some 67108864, none, some 134217728, none, some 268435456, none, some 536870912, none, some 1073741824, none]

/-- A concrete market-data provider for exercising the aggregator:
symbol "D" raises, symbol "E" returns an empty history, and every other
symbol returns a one-row INR history. -/
def sampleProvider : String → Option (Bool × TickerBasicInfo × TickerHist) :=
  fun t =>
    if t = "D" then none
    else if t = "E" then
      some (false, ⟨"USD", "E", "N/A", "N/A"⟩,
        ⟨["Open", "High", "Low", "Close", "Volume"], [], [], [], [], [], 0⟩)
    else
      some (true, ⟨"INR", t, "N/A", "N/A"⟩,
        ⟨["Open", "High", "Low", "Close", "Volume"],
         [some 1], [some 1], [some 1], [some 1], [some 1], 1⟩)

/-!
Helper lemmas about the gap-filling primitives.
-/

theorem length_ffillAux (l : List (Option ℚ)) :
    ∀ acc, (ffillAux acc l).length = l.length := by
  induction l with
  | nil => intro acc; rfl
  | cons x xs ih => intro acc; simp [ffillAux, ih]

theorem length_ffill (l : List (Option ℚ)) : (ffill l).length = l.length :=
  length_ffillAux l none

theorem length_bfill (l : List (Option ℚ)) : (bfill l).length = l.length := by
  induction l with
  | nil => rfl
  | cons x xs ih => simp [bfill, ih]

theorem firstValid_cons (x : Option ℚ) (xs : List (Option ℚ)) :
    firstValid (x :: xs) = x.or (firstValid xs) := by
  cases x <;> simp [firstValid, List.filterMap_cons]

theorem firstValid_ffillAux_none (xs : List (Option ℚ)) :
    firstValid (ffillAux none xs) = firstValid xs := by
  induction xs with
  | nil => rfl
  | cons x xs ih =>
    cases x with
    | some v => simp [ffillAux, firstValid_cons]
    | none => simp [ffillAux, firstValid_cons, ih]

theorem getLast?_cons_or {α : Type} (a : α) (l : List α) :
    (a :: l).getLast? = l.getLast?.or (some a) := by
  induction l generalizing a with
  | nil => rfl
  | cons b t ih =>
    rw [List.getLast?_cons_cons, ih b]
    cases t.getLast? <;> rfl

theorem lastValidUpTo_zero (x : Option ℚ) (xs : List (Option ℚ)) :
    lastValidUpTo (x :: xs) 0 = x := by
  cases x <;> simp [lastValidUpTo, List.filterMap_cons]

theorem lastValidUpTo_succ (x : Option ℚ) (xs : List (Option ℚ)) (i : ℕ) :
    lastValidUpTo (x :: xs) (i + 1) = (lastValidUpTo xs i).or x := by
  cases x with
  | some v =>
    simp only [lastValidUpTo, List.take_succ_cons, List.filterMap_cons]
    exact getLast?_cons_or v _
  | none =>
    simp [lastValidUpTo, List.take_succ_cons, List.filterMap_cons, Option.or_none]

theorem bfill_ffillAux_getD (l : List (Option ℚ)) :
    ∀ (acc : Option ℚ) (i : ℕ), i < l.length →
      (bfill (ffillAux acc l)).getD i none
        = ((lastValidUpTo l i).or acc).or ((firstValid l).or acc) := by
  induction l with
  | nil => intro acc i hi; simp at hi
  | cons x xs ih =>
    intro acc i hi
    cases i with
    | zero =>
      rw [lastValidUpTo_zero, firstValid_cons]
      show ((x.or acc).or (firstValid (ffillAux (x.or acc) xs)))
        = ((x.or acc)).or (((x.or (firstValid xs))).or acc)
      cases x with
      | some v => simp
      | none =>
        cases acc with
        | some a => simp
        | none => simp [firstValid_ffillAux_none]
    | succ i =>
      have hi' : i < xs.length := by simpa using hi
      rw [lastValidUpTo_succ, firstValid_cons]
      show (bfill (ffillAux (x.or acc) xs)).getD i none
        = (((lastValidUpTo xs i).or x).or acc).or (((x.or (firstValid xs))).or acc)
      rw [ih (x.or acc) i hi']
      cases lastValidUpTo xs i <;> cases x <;> cases acc <;> cases firstValid xs <;> rfl

theorem cleaned_getD (l : List (Option ℚ)) (i : ℕ) (hi : i < l.length) :
    (bfill (ffill l)).getD i none = (lastValidUpTo l i).or (firstValid l) := by
  have h := bfill_ffillAux_getD l none i hi
  simpa [Option.or_none] using h

theorem cleaned_isSome (l : List (Option ℚ))
    (h : (firstValid l).isSome = true) :
    ∀ y ∈ bfill (ffill l), y.isSome = true := by
  intro y hy
  obtain ⟨i, hget⟩ := List.mem_iff_get.mp hy
  have hlen : (i : ℕ) < l.length := by
    have h1 := length_bfill (ffill l)
    have h2 := length_ffill l
    have h3 := i.isLt
    omega
  have hgd : (bfill (ffill l)).getD (i : ℕ) none = y := by
    rw [List.getD_eq_getElem?_getD, List.getElem?_eq_getElem i.isLt]
    simpa using hget
  have hval := cleaned_getD l i hlen
  rw [hgd] at hval
  cases hl : lastValidUpTo l (i : ℕ) with
  | some v => rw [hval, hl]; rfl
  | none => rw [hval, hl, Option.none_or]; exact h

/-!
The shifted-division pipeline equals direct adjacent pairing over the
gap-compacted series.
-/

theorem zipWith_shiftDiv_eq (xs : List ℚ) :
    ∀ p : ℚ,
      List.zipWith shiftDiv xs ((p :: xs).dropLast.map some)
        = ((p :: xs).zip xs).map (fun pc => floatDiv pc.2 pc.1) := by
  induction xs with
  | nil => intro p; rfl
  | cons a rest ih =>
    intro p
    rw [List.dropLast_cons₂, List.map_cons, List.zipWith_cons_cons,
      List.zip_cons_cons, List.map_cons, ih a]
    rfl

theorem codeObs_eq_compacted (close : List (Option ℚ)) :
    codeObs close = obsOverCompactedPairs close := by
  unfold codeObs obsOverCompactedPairs
  cases hxs : close.filterMap id with
  | nil => rfl
  | cons x rest =>
    have h1 : List.zipWith shiftDiv (x :: rest)
        ((none : Option ℚ) :: (x :: rest).dropLast.map some)
        = FV.nan :: ((x :: rest).zip rest).map (fun pc => floatDiv pc.2 pc.1) := by
      rw [List.zipWith_cons_cons, zipWith_shiftDiv_eq rest x]
      rfl
    dsimp only
    rw [h1]
    simp only [List.map_cons, List.map_map]
    rw [List.filter_cons]
    simp only [logFV, FV.isNan, Bool.not_true, Bool.false_eq_true, if_false]
    rfl

theorem mem_codeObs_pair (close : List (Option ℚ)) (o : FV)
    (ho : o ∈ codeObs close) :
    ∃ p c : ℚ, some p ∈ close ∧ some c ∈ close ∧ o = logFV (floatDiv c p) := by
  rw [codeObs_eq_compacted] at ho
  unfold obsOverCompactedPairs at ho
  dsimp only at ho
  have h1 := (List.mem_filter.mp ho).1
  obtain ⟨pc, hpc, heq⟩ := List.mem_map.mp h1
  obtain ⟨hp, hc⟩ := List.of_mem_zip hpc
  have hc2 : pc.2 ∈ close.filterMap id := List.mem_of_mem_tail hc
  obtain ⟨a, ha, haeq⟩ := List.mem_filterMap.mp hp
  obtain ⟨b, hb, hbeq⟩ := List.mem_filterMap.mp hc2
  refine ⟨pc.1, pc.2, ?_, ?_, heq.symm⟩
  · rw [← haeq]; simpa using ha
  · rw [← hbeq]; simpa using hb

theorem codeObs_pos_val (close : List (Option ℚ))
    (hpos : ∀ q : ℚ, some q ∈ close → 0 < q) :
    ∀ o ∈ codeObs close, ∃ r : ℚ, 0 < r ∧ o = FV.val r := by
  intro o ho
  obtain ⟨p, c, hp, hc, rfl⟩ := mem_codeObs_pair close o ho
  have hp1 := hpos p hp
  have hc1 := hpos c hc
  refine ⟨c / p, div_pos hc1 hp1, ?_⟩
  simp [floatDiv, logFV, hp1.ne', div_pos hc1 hp1]

theorem codeObs_any_posInf_false (close : List (Option ℚ))
    (hpos : ∀ q : ℚ, some q ∈ close → 0 < q) :
    (codeObs close).any FV.isPosInf = false := by
  rw [List.any_eq_false]
  intro o ho
  obtain ⟨r, hr, rfl⟩ := codeObs_pos_val close hpos o ho
  simp [FV.isPosInf]

theorem codeObs_any_negInf_false (close : List (Option ℚ))
    (hpos : ∀ q : ℚ, some q ∈ close → 0 < q) :
    (codeObs close).any FV.isNegInf = false := by
  rw [List.any_eq_false]
  intro o ho
  obtain ⟨r, hr, rfl⟩ := codeObs_pos_val close hpos o ho
  simp [FV.isNegInf]

/-!
Helper lemmas about the result-dictionary model.
-/

theorem mem_keys_dictInsert {α : Type} (l : List (String × α)) (k : String)
    (v : α) (s : String) :
    s ∈ (dictInsert l k v).map Prod.fst ↔ s ∈ l.map Prod.fst ∨ s = k := by
  induction l with
  | nil => simp [dictInsert]
  | cons hd tl ih =>
    obtain ⟨k1, v1⟩ := hd
    by_cases h : k1 = k
    · subst h
      simp [dictInsert]
      tauto
    · simp only [dictInsert, if_neg h, List.map_cons, List.mem_cons, ih]
      tauto

theorem nodup_keys_dictInsert {α : Type} (l : List (String × α)) (k : String)
    (v : α) (h : (l.map Prod.fst).Nodup) :
    ((dictInsert l k v).map Prod.fst).Nodup := by
  induction l with
  | nil => simp [dictInsert]
  | cons hd tl ih =>
    obtain ⟨k1, v1⟩ := hd
    simp only [List.map_cons, List.nodup_cons] at h
    by_cases hk : k1 = k
    · subst hk
      simpa [dictInsert, List.nodup_cons] using h
    · simp only [dictInsert, if_neg hk, List.map_cons, List.nodup_cons]
      refine ⟨?_, ih h.2⟩
      rw [mem_keys_dictInsert]
      rintro (hm | rfl)
      · exact h.1 hm
      · exact hk rfl

theorem collect_foldl_mem (fetch : String → Option TickerData)
    (order : List String) :
    ∀ (acc : List (String × TickerData)) (s : String),
      s ∈ ((order.foldl
          (fun res t =>
            match fetch t with
            | some d => dictInsert res t d
            | none => res) acc).map Prod.fst)
        ↔ s ∈ acc.map Prod.fst ∨ (s ∈ order ∧ (fetch s).isSome = true) := by
  induction order with
  | nil => intro acc s; simp
  | cons t rest ih =>
    intro acc s
    rw [List.foldl_cons]
    cases hf : fetch t with
    | none =>
      rw [ih]
      simp only [List.mem_cons]
      constructor
      · rintro (h | ⟨hs, hsome⟩)
        · exact Or.inl h
        · exact Or.inr ⟨Or.inr hs, hsome⟩
      · rintro (h | ⟨(rfl | hs), hsome⟩)
        · exact Or.inl h
        · rw [hf] at hsome; simp at hsome
        · exact Or.inr ⟨hs, hsome⟩
    | some d =>
      rw [ih]
      rw [mem_keys_dictInsert]
      simp only [List.mem_cons]
      constructor
      · rintro ((h | rfl) | ⟨hs, hsome⟩)
        · exact Or.inl h
        · exact Or.inr ⟨Or.inl rfl, by simp [hf]⟩
        · exact Or.inr ⟨Or.inr hs, hsome⟩
      · rintro (h | ⟨(rfl | hs), hsome⟩)
        · exact Or.inl (Or.inl h)
        · exact Or.inl (Or.inr rfl)
        · exact Or.inr ⟨hs, hsome⟩

theorem collect_foldl_nodup (fetch : String → Option TickerData)
    (order : List String) :
    ∀ (acc : List (String × TickerData)),
      (acc.map Prod.fst).Nodup →
      ((order.foldl
          (fun res t =>
            match fetch t with
            | some d => dictInsert res t d
            | none => res) acc).map Prod.fst).Nodup := by
  induction order with
  | nil => intro acc h; simpa using h
  | cons t rest ih =>
    intro acc h
    rw [List.foldl_cons]
    cases hf : fetch t with
    | none => exact ih acc h
    | some d => exact ih _ (nodup_keys_dictInsert acc t d h)

theorem collect_foldl_all_none (fetch : String → Option TickerData)
    (order : List String) (hnone : ∀ t ∈ order, fetch t = none) :
    ∀ acc,
      order.foldl
        (fun res t =>
          match fetch t with
          | some d => dictInsert res t d
          | none => res) acc = acc := by
  induction order with
  | nil => intro acc; rfl
  | cons t rest ih =>
    intro acc
    rw [List.foldl_cons, hnone t (List.mem_cons_self t rest)]
    exact ih (fun u hu => hnone u (List.mem_cons_of_mem t hu)) acc

/-!
Worker-pool admissibility lemma.
-/

theorem admissibleFrom_bound (t : List PoolEv) :
    ∀ (w init : ℕ), admissibleFrom w init t = true → init ≤ w →
      ∀ n, runningAfter init (t.take n) ≤ w := by
  induction t with
  | nil =>
    intro w init hadm hinit n
    simpa [runningAfter] using hinit
  | cons e rest ih =>
    intro w init hadm hinit n
    cases n with
    | zero => simpa [runningAfter] using hinit
    | succ n =>
      rw [List.take_succ_cons]
      unfold admissibleFrom at hadm
      rw [Bool.and_eq_true, decide_eq_true_eq] at hadm
      exact ih w (stepCount init e) hadm.2 hadm.1 n

/-!
Claim theorems.
-/

/-- C2 counterexample: on the series `[1, NaN, 2]` the spec's valid
adjacent pairs contribute nothing (every adjacent pair touches the gap),
but the code drops the NaN first and pairs `1` with `2` across the gap,
retaining the observation of ratio `2`. -/
theorem c2_counterexample :
    codeObs [some 1, none, some 2] = [FV.val 2]
    ∧ specAdjacentObs [some 1, none, some 2] = []
    ∧ codeObs [some 1, none, some 2] ≠ specAdjacentObs [some 1, none, some 2] := by
  have h1 : codeObs [some 1, none, some 2] = [FV.val 2] := by
    norm_num [codeObs, shiftDiv, floatDiv, logFV, FV.isNan, List.filterMap_cons,
      List.filter_cons]
  have h2 : specAdjacentObs [some 1, none, some 2] = [] := by decide
  exact ⟨h1, h2, by rw [h1, h2]; simp⟩

/-- C2 amended: the log-return observations used by the estimator are
`ln(c / p)` over the adjacent pairs `(p, c)` of the gap-compacted series
(missing values are removed first, so a pair may span a gap of the
original series); a pair whose float ratio has NaN logarithm (negative
ratio, 0/0, or current value negative over a zero previous value) is
dropped, while a zero previous value yields a retained +inf observation
and a zero current value over a nonzero previous one yields a retained
-inf observation. -/
theorem c2_amended (close : List (Option ℚ)) :
    codeObs close = obsOverCompactedPairs close :=
  codeObs_eq_compacted close

/-- C3 counterexample: with input `["AAPL", "AAPL"]` the dictionary
comprehension submits two fetch tasks for the single distinct symbol,
refuting "at most one fetch-and-derive task per distinct symbol". -/
theorem c3_counterexample :
    ¬ ((future_to_ticker ["AAPL", "AAPL"]).filter
        (fun p => p.2 == "AAPL")).length ≤ 1 := by
  decide

/-- C3 amended: one fetch task is dispatched per input list element (a
symbol appearing twice is fetched twice), and the output mapping still
has at most one entry per distinct symbol. -/
theorem c3_amended
    (provider : String → Option (Bool × TickerBasicInfo × TickerHist))
    (getRate : String → String → Option ℚ)
    (tickers order : List String) (hperm : order.Perm tickers) :
    (future_to_ticker tickers).length = tickers.length
    ∧ ((get_financial_data provider getRate tickers order).map Prod.fst).Nodup := by
  refine ⟨by simp [future_to_ticker], ?_⟩
  unfold get_financial_data collectResults
  by_cases he : tickers.isEmpty
  · simp [he]
  · simp only [he, Bool.false_eq_true, if_false]
    exact collect_foldl_nodup (fetchOutcome provider getRate) order [] (by simp)

/-- C3 witness: two equal symbols give two dispatched tasks and a
duplicate-free result mapping. -/
theorem c3_witness :
    (["A", "A"] : List String).Perm ["A", "A"]
    ∧ (future_to_ticker ["A", "A"]).length = (["A", "A"] : List String).length
    ∧ ((get_financial_data (fun _ => none) (fun _ _ => none) ["A", "A"]
        ["A", "A"]).map Prod.fst).Nodup :=
  ⟨List.Perm.refl _,
   (c3_amended (fun _ => none) (fun _ _ => none) ["A", "A"] ["A", "A"]
     (List.Perm.refl _)).1,
   (c3_amended (fun _ => none) (fun _ _ => none) ["A", "A"] ["A", "A"]
     (List.Perm.refl _)).2⟩

/-- C4 counterexample: at monthly amount 5000, annual rate 12 percent and
5 years, the fallback's moderate lump figure differs from
`calculate_future_value`, so the two are not the same function of
(monthly_amount, annual_rate, years). -/
theorem c4_counterexample :
    (local_fallback_projections 5000 5).2.1
      ≠ calculate_future_value 5000 (12 / 100) 5 := by
  norm_num [local_fallback_projections, calculate_future_value, moderate_return]

/-- C4 amended: on unavailability (client unconfigured, or the remote
call failing) the locally generated fallback is substituted, but its
projected lump figures use `monthly_amount * 12 * (1 + annual_rate) ^
years` for the 8, 12 and 15 percent scenarios — a different formula from
ProjectionCalculator's `calculate_future_value`. -/
theorem c4_amended :
    (∀ (m : ℚ) (y : ℕ),
        local_fallback_projections m y
          = (m * 12 * (1 + 8 / 100) ^ y, m * 12 * (1 + 12 / 100) ^ y,
             m * 12 * (1 + 15 / 100) ^ y))
    ∧ (∀ (remote : Option String) (fb : String),
        get_llm_response false remote fb = fb)
    ∧ (∀ fb : String, get_llm_response true none fb = fb) :=
  ⟨fun _ _ => rfl, fun _ _ => rfl, fun _ => rfl⟩

/-- C6 counterexample: `gapDoublingSeries` has zero valid adjacent
log-return pairs in the spec's sense (fewer than 30), yet the estimator
returns 100, not the 0.0 sentinel: the code counts pairs of the
gap-compacted series, of which there are 30. -/
theorem c6_counterexample :
    specValidPairsCount gapDoublingSeries < 30
    ∧ calculate_expected_return gapDoublingSeries ≠ some 0 := by
  constructor
  · decide
  · have h100 : calculate_expected_return gapDoublingSeries = some 100 := by
      have hobs : codeObs gapDoublingSeries = List.replicate 30 (FV.val 2) := by
        norm_num [gapDoublingSeries, codeObs, shiftDiv, floatDiv, logFV, FV.isNan,
          List.filterMap_cons, List.replicate, List.filter_cons]
      have hne : gapDoublingSeries.isEmpty = false := by decide
      unfold calculate_expected_return
      rw [hne]
      simp only [Bool.false_eq_true, if_false, hobs, List.length_replicate]
      rw [if_neg (by norm_num)]
      unfold annualizeClamped
      rw [if_neg (by decide), if_neg (by decide)]
      rw [List.map_replicate, List.sum_replicate, List.length_replicate]
      have hlog : obsLog (FV.val 2) = Real.log 2 := by
        norm_num [obsLog]
      rw [hlog]
      have h1 : ((30 : ℕ) • Real.log 2) / ((30 : ℕ) : ℝ) * 252
          = 252 * Real.log 2 := by
        push_cast [nsmul_eq_mul]
        field_simp
        ring
      rw [h1]
      have h2 : Real.exp (252 * Real.log 2) = 2 ^ 252 := by
        have hlp := Real.log_pow (2 : ℝ) 252
        rw [show (((252 : ℕ) : ℝ) * Real.log 2) = 252 * Real.log 2 by norm_num] at hlp
        rw [← hlp, Real.exp_log (by positivity)]
      rw [h2]
      have h3 : min (((2 : ℝ) ^ 252 - 1) * 100) 100 = 100 := by
        rw [min_eq_right]
        have h4 : (2 : ℝ) ^ 1 ≤ 2 ^ 252 :=
          pow_le_pow_right₀ (by norm_num) (by norm_num)
        rw [pow_one] at h4
        nlinarith
      rw [h3]
      rw [max_eq_left (by norm_num : (-100 : ℝ) ≤ 100)]
    rw [h100]
    norm_num

/-- C6 amended: whenever the pipeline retains fewer than 30 log-return
observations (pairs taken over the gap-compacted series, NaN outcomes
dropped), the estimator returns exactly 0.0 — a defined
insufficient-signal sentinel, not an error. -/
theorem c6_amended (close : List (Option ℚ))
    (hlen : (codeObs close).length < 30) :
    calculate_expected_return close = some 0 := by
  unfold calculate_expected_return
  by_cases he : close.isEmpty
  · simp [he]
  · simp [he, hlen]

/-- C6 witness: a two-entry series with one gap retains no observation
and the estimator answers 0.0. -/
theorem c6_witness :
    (codeObs [some 1, none]).length < 30
    ∧ calculate_expected_return [some 1, none] = some 0 :=
  ⟨by decide, c6_amended [some 1, none] (by decide)⟩

/-- C9: under the calculator guard (positive monthly amount and years),
the charted series value at month i is
`monthly_amount * i * (1 + rate/12)^i` for every i in 0..years*12
inclusive, computed exactly for the three fixed scenarios 8, 12 and 15
percent, sharing the month axis `range (years*12 + 1)`. -/
theorem c9_projection_series (monthly_investment : ℚ) (projection_years : ℕ)
    (hm : 0 < monthly_investment) (hy : 0 < projection_years) :
    (projections monthly_investment projection_years).month
        = List.range (projection_years * 12 + 1)
    ∧ (projections monthly_investment projection_years).conservative.length
        = projection_years * 12 + 1
    ∧ (projections monthly_investment projection_years).moderate.length
        = projection_years * 12 + 1
    ∧ (projections monthly_investment projection_years).aggressive.length
        = projection_years * 12 + 1
    ∧ (∀ i, i ≤ projection_years * 12 →
        (projections monthly_investment projection_years).conservative.getD i 0
            = monthly_investment * (i : ℚ) * (1 + conservative_rate / 12) ^ i
        ∧ (projections monthly_investment projection_years).moderate.getD i 0
            = monthly_investment * (i : ℚ) * (1 + moderate_rate / 12) ^ i
        ∧ (projections monthly_investment projection_years).aggressive.getD i 0
            = monthly_investment * (i : ℚ) * (1 + aggressive_rate / 12) ^ i) := by
  refine ⟨rfl, by simp [projections, projectionMonths],
    by simp [projections, projectionMonths],
    by simp [projections, projectionMonths], ?_⟩
  intro i hi
  have hi2 : i < projection_years * 12 + 1 := Nat.lt_succ_of_le hi
  refine ⟨?_, ?_, ?_⟩ <;>
    simp [projections, projectionMonths, List.getD_eq_getElem?_getD,
      List.getElem?_map, List.getElem?_range, hi2]

/-- C9 witness: the series for a 5000 monthly amount over 5 years. -/
theorem c9_witness :
    (0 : ℚ) < 5000 ∧ 0 < 5
    ∧ (projections 5000 5).month = List.range (5 * 12 + 1)
    ∧ (projections 5000 5).conservative.getD 60 0
        = 5000 * ((60 : ℕ) : ℚ) * (1 + conservative_rate / 12) ^ 60 :=
  ⟨by norm_num, by norm_num,
   (c9_projection_series 5000 5 (by norm_num) (by norm_num)).1,
   ((c9_projection_series 5000 5 (by norm_num) (by norm_num)).2.2.2.2 60
     (by norm_num)).1⟩

/-- C10: the executor pool width chosen by the code is
`min(len(tickers), 5) ≤ 5`, and every trace admissible for that width
keeps at most 5 fetch tasks in flight at every instant. -/
theorem c10_pool_bound (tickers : List String) (trace : List PoolEv)
    (hadm : poolAdmissible (max_workers tickers) trace = true) :
    max_workers tickers ≤ 5 ∧ ∀ n, runningAfter 0 (trace.take n) ≤ 5 := by
  have hw : max_workers tickers ≤ 5 := min_le_right _ _
  exact ⟨hw, fun n =>
    le_trans (admissibleFrom_bound trace (max_workers tickers) 0 hadm
      (Nat.zero_le _) n) hw⟩

/-- C10 witness: a 12-symbol request with an admissible 7-event trace
stays within the bound after 5 events. -/
theorem c10_witness :
    poolAdmissible
        (max_workers ["T1", "T2", "T3", "T4", "T5", "T6", "T7", "T8", "T9",
          "T10", "T11", "T12"])
        [PoolEv.start 0, PoolEv.start 1, PoolEv.start 2, PoolEv.start 3,
         PoolEv.start 4, PoolEv.done 2, PoolEv.start 5] = true
    ∧ runningAfter 0
        ([PoolEv.start 0, PoolEv.start 1, PoolEv.start 2, PoolEv.start 3,
          PoolEv.start 4, PoolEv.done 2, PoolEv.start 5].take 5) ≤ 5 :=
  ⟨by decide,
   (c10_pool_bound ["T1", "T2", "T3", "T4", "T5", "T6", "T7", "T8", "T9",
      "T10", "T11", "T12"] _ (by decide)).2 5⟩

/-- C7: for every non-empty close series whose present values are all
strictly positive, the estimator returns a float (never NaN) lying in
the closed interval from -100 to 100. -/
theorem c7_estimate_in_range (close : List (Option ℚ)) (hne : close ≠ [])
    (hpos : ∀ q : ℚ, some q ∈ close → 0 < q) :
    ∃ r : ℝ, calculate_expected_return close = some r ∧ -100 ≤ r ∧ r ≤ 100 := by
  have hni : close.isEmpty = false := by
    cases close with
    | nil => exact absurd rfl hne
    | cons a l => rfl
  by_cases hlen : (codeObs close).length < 30
  · exact ⟨0, by simp [calculate_expected_return, hni, hlen], by norm_num,
      by norm_num⟩
  · have hp := codeObs_any_posInf_false close hpos
    have hn := codeObs_any_negInf_false close hpos
    refine ⟨max (min ((Real.exp (((codeObs close).map obsLog).sum
        / ((codeObs close).length : ℝ) * 252) - 1) * 100) 100) (-100), ?_,
      le_max_right _ _, ?_⟩
    · simp [calculate_expected_return, hni, hlen, annualizeClamped, hp, hn]
    · exact max_le (min_le_right _ _) (by norm_num)

/-- C7 witness: the singleton positive series. -/
theorem c7_witness :
    (([some (1 : ℚ)] : List (Option ℚ)) ≠ [])
    ∧ ∃ r : ℝ, calculate_expected_return [some 1] = some r
        ∧ -100 ≤ r ∧ r ≤ 100 :=
  ⟨by simp,
   c7_estimate_in_range [some 1] (by simp)
     (fun q hq => by
       rw [List.mem_singleton, Option.some.injEq] at hq
       rw [hq]
       norm_num)⟩

/-- C8 counterexample: `convert_to_inr` does pass the amount through on
a failed lookup, but a failed rate lookup inside `fetch_single_ticker`
drops the whole ticker: with the same frame the fetch yields a record
when the lookup succeeds and `none` when it fails. -/
theorem c8_counterexample :
    convert_to_inr (fun _ _ => none) 5 "USD" = 5
    ∧ fetch_single_ticker "AAPL" false ⟨"USD", "Apple", "Tech", "CE"⟩
        ⟨["Open", "High", "Low", "Close", "Volume"],
         [some 1], [some 1], [some 1], [some 1], [some 1], 1⟩
        (fun _ _ => none) = none
    ∧ (fetch_single_ticker "AAPL" false ⟨"USD", "Apple", "Tech", "CE"⟩
        ⟨["Open", "High", "Low", "Close", "Volume"],
         [some 1], [some 1], [some 1], [some 1], [some 1], 1⟩
        (fun _ _ => some 80)).isSome = true :=
  ⟨rfl, rfl, by decide⟩

/-- C8 amended: a failed rate lookup inside `convert_to_inr` never
propagates and the original amount is returned; but inside
`fetch_single_ticker` the rate lookup is called directly, so for a
non-INR ticker a lookup failure makes the fetch return no result (the
ticker is dropped from the aggregate), while the aggregate continues
with the other tickers and raises no error. -/
theorem c8_amended :
    (∀ (getRate : String → String → Option ℚ) (amount : ℚ) (c : String),
        getRate c "INR" = none → convert_to_inr getRate amount c = amount)
    ∧ (∀ (t : String) (info : TickerBasicInfo) (hist : TickerHist)
        (getRate : String → String → Option ℚ),
        info.currency ≠ "INR" → getRate info.currency "INR" = none →
        fetch_single_ticker t false info hist getRate = none) := by
  constructor
  · intro gr a c hr
    unfold convert_to_inr
    by_cases hc : c = "INR"
    · simp [hc]
    · simp [hc, hr]
  · intro t info hist gr hcur hr
    by_cases h0 : hist.nrows = 0
    · simp [fetch_single_ticker, h0]
    · by_cases hcols : (requiredCols.all fun c => hist.columns.contains c) = true
      · simp [fetch_single_ticker, h0, hcols, hcur, hr]
      · have hcf := Bool.eq_false_iff.mpr hcols
        unfold fetch_single_ticker
        rw [if_neg h0, hcf]
        simp

/-- C8 witness: concrete instances of both conjuncts of the amended
claim. -/
theorem c8_witness :
    convert_to_inr (fun _ _ => none) 7 "USD" = 7
    ∧ fetch_single_ticker "MSFT" false ⟨"USD", "Microsoft", "Tech", "Software"⟩
        ⟨["Open", "High", "Low", "Close", "Volume"],
         [some 2], [some 2], [some 2], [some 2], [some 2], 1⟩
        (fun _ _ => none) = none :=
  ⟨c8_amended.1 (fun _ _ => none) 7 "USD" rfl,
   c8_amended.2 "MSFT" ⟨"USD", "Microsoft", "Tech", "Software"⟩
     ⟨["Open", "High", "Low", "Close", "Volume"],
      [some 2], [some 2], [some 2], [some 2], [some 2], 1⟩
     (fun _ _ => none) (by decide) rfl⟩

/-- C5: the aggregate never fails: its result dictionary has exactly one
entry per requested symbol whose fetch task produced data — with
distinct requested symbols the size equals the number of successes, and
when every task fails the dictionary is empty. -/
theorem c5_degraded_aggregate
    (provider : String → Option (Bool × TickerBasicInfo × TickerHist))
    (getRate : String → String → Option ℚ)
    (tickers order : List String) (hperm : order.Perm tickers) :
    (∀ s : String,
        s ∈ (get_financial_data provider getRate tickers order).map Prod.fst
          ↔ s ∈ tickers ∧ (fetchOutcome provider getRate s).isSome = true)
    ∧ ((get_financial_data provider getRate tickers order).map Prod.fst).Nodup
    ∧ (tickers.Nodup →
        (get_financial_data provider getRate tickers order).length
          = (tickers.filter fun t =>
              (fetchOutcome provider getRate t).isSome).length)
    ∧ ((∀ t, fetchOutcome provider getRate t = none) →
        get_financial_data provider getRate tickers order = []) := by
  unfold get_financial_data collectResults
  by_cases he : tickers.isEmpty
  · have ht : tickers = [] := List.isEmpty_iff.mp he
    subst ht
    have ho : order = [] := hperm.eq_nil
    subst ho
    simp
  · simp only [he, Bool.false_eq_true, if_false]
    have hmem := collect_foldl_mem (fetchOutcome provider getRate) order
    have hnodup := collect_foldl_nodup (fetchOutcome provider getRate) order []
      (by simp)
    refine ⟨?_, hnodup, ?_, ?_⟩
    · intro s
      rw [hmem [] s]
      simp [hperm.mem_iff]
    · intro htn
      have hperm2 := (List.perm_ext_iff_of_nodup hnodup
        (htn.filter (fun t => (fetchOutcome provider getRate t).isSome))).mpr
        (fun s => by
          rw [hmem [] s]
          simp [hperm.mem_iff, List.mem_filter])
      have hlen := hperm2.length_eq
      rw [List.length_map] at hlen
      exact hlen
    · intro hall
      exact collect_foldl_all_none (fetchOutcome provider getRate) order
        (fun u _ => hall u) []

/-- C5 witness: three valid symbols plus one raising provider call plus
one empty history give exactly three entries. -/
theorem c5_witness :
    (["A", "B", "C", "D", "E"] : List String).Nodup
    ∧ (get_financial_data sampleProvider (fun _ _ => none)
        ["A", "B", "C", "D", "E"] ["A", "B", "C", "D", "E"]).length
      = ((["A", "B", "C", "D", "E"] : List String).filter fun t =>
          (fetchOutcome sampleProvider (fun _ _ => none) t).isSome).length
    ∧ ((["A", "B", "C", "D", "E"] : List String).filter fun t =>
          (fetchOutcome sampleProvider (fun _ _ => none) t).isSome).length = 3 :=
  ⟨by decide,
   (c5_degraded_aggregate sampleProvider (fun _ _ => none)
     ["A", "B", "C", "D", "E"] ["A", "B", "C", "D", "E"]
     (List.Perm.refl _)).2.2.1 (by decide),
   by decide⟩

/-- Success form of a fetch: when `fetch_single_ticker` yields a record,
it was built from either the raw frame (INR path) or the rate-converted
frame, whose `Volume` column is the raw one in both cases. -/
theorem fetch_success_form (t : String) (ns : Bool) (info : TickerBasicInfo)
    (hist : TickerHist) (getRate : String → String → Option ℚ)
    (hs : (fetch_single_ticker t ns info hist getRate).isSome = true) :
    ∃ h2 : TickerHist, h2.volumeCol = hist.volumeCol ∧
      fetch_single_ticker t ns info hist getRate = some
        { ticker := t
          name := info.longName
          currency := "INR"
          current_price := lastFV h2.closeCol
          price_change := FV.mul (FV.div (FV.sub (lastFV h2.closeCol)
            (headFV h2.closeCol)) (headFV h2.closeCol)) (FV.val 100)
          high_52week := pandasMax h2.highCol
          low_52week := pandasMin h2.lowCol
          avg_volume := pandasMean h2.volumeCol
          expected_return := calculate_expected_return h2.closeCol
          historical_data := cleanHist h2
          sector := info.sector
          industry := info.industry } := by
  unfold fetch_single_ticker at hs ⊢
  by_cases h0 : hist.nrows = 0
  · rw [if_pos h0] at hs
    simp at hs
  · rw [if_neg h0] at hs ⊢
    by_cases hcols : (requiredCols.all fun c => hist.columns.contains c) = true
    · rw [hcols] at hs ⊢
      simp only [Bool.not_true, Bool.false_eq_true, if_false] at hs ⊢
      by_cases hinr : (if ns then "INR" else info.currency) = "INR"
      · rw [if_pos hinr] at hs ⊢
        exact ⟨hist, rfl, rfl⟩
      · rw [if_neg hinr] at hs ⊢
        cases hrate : getRate (if ns then "INR" else info.currency) "INR" with
        | none => rw [hrate] at hs; simp at hs
        | some r => exact ⟨convertHist r hist, rfl, rfl⟩
    · have hcf := Bool.eq_false_iff.mpr hcols
      rw [hcf] at hs
      simp at hs

/-- C1 amended: the derived statistics are computed from the raw series
before gap-filling — in particular `avg_volume` is the NaN-skipping mean
of the raw volume column — while only the returned cleaned history is
gap-filled (forward-fill then back-fill), each of its entries being the
nearest prior valid value or, for a leading gap, the first valid value,
and it is free of missing values whenever the column has at least one
valid value. -/
theorem c1_amended (t : String) (ns : Bool) (info : TickerBasicInfo)
    (hist : TickerHist) (getRate : String → String → Option ℚ)
    (hs : (fetch_single_ticker t ns info hist getRate).isSome = true) :
    (fetch_single_ticker t ns info hist getRate).map TickerData.avg_volume
        = some (pandasMean hist.volumeCol)
    ∧ (fetch_single_ticker t ns info hist getRate).map
          (fun d => d.historical_data.volumeCol)
        = some (bfill (ffill hist.volumeCol))
    ∧ (∀ i, i < hist.volumeCol.length →
        (fetch_single_ticker t ns info hist getRate).map
            (fun d => d.historical_data.volumeCol.getD i none)
          = some ((lastValidUpTo hist.volumeCol i).or
              (firstValid hist.volumeCol)))
    ∧ ((firstValid hist.volumeCol).isSome = true →
        (fetch_single_ticker t ns info hist getRate).map
            (fun d => d.historical_data.volumeCol.all Option.isSome)
          = some true) := by
  obtain ⟨h2, hvol, heq⟩ := fetch_success_form t ns info hist getRate hs
  rw [heq]
  refine ⟨by simp [hvol], by simp [cleanHist, hvol], ?_, ?_⟩
  · intro i hi
    simp only [Option.map_some', Option.some.injEq, cleanHist, hvol]
    exact cleaned_getD hist.volumeCol i hi
  · intro hfv
    simp only [Option.map_some', Option.some.injEq, cleanHist, hvol]
    rw [List.all_eq_true]
    intro y hy
    exact cleaned_isSome hist.volumeCol hfv y hy

/-- C1 counterexample: with raw volumes `[10, NaN, 40]` the code's
`avg_volume` is 25 (mean of the raw, NaN-skipping), not 20 (mean of the
gap-filled column), so the statistics are not computed from the
gap-filled series. -/
theorem c1_counterexample :
    (fetch_single_ticker "TCS.NS" true ⟨"INR", "TCS", "IT", "IT"⟩
        ⟨["Open", "High", "Low", "Close", "Volume"],
         [some 1, some 1, some 1], [some 1, some 1, some 1],
         [some 1, some 1, some 1], [some 1, some 1, some 1],
         [some 10, none, some 40], 3⟩
        (fun _ _ => none)).map TickerData.avg_volume = some (FV.val 25)
    ∧ pandasMean (bfill (ffill [some 10, none, some 40])) = FV.val 20
    ∧ FV.val (25 : ℚ) ≠ FV.val 20 := by
  refine ⟨?_, ?_, by norm_num⟩
  · show some (pandasMean [some 10, none, some 40]) = some (FV.val 25)
    norm_num [pandasMean, List.filterMap_cons]
  · norm_num [pandasMean, bfill, ffill, ffillAux, firstValid,
      List.filterMap_cons, Option.or]

/-- C1 witness: a gapped volume column on the INR path. -/
theorem c1_witness :
    ((fetch_single_ticker "INFY.NS" true ⟨"INR", "Infosys", "IT", "IT"⟩
        ⟨["Open", "High", "Low", "Close", "Volume"],
         [some 2, some 2, some 2], [some 2, some 2, some 2],
         [some 2, some 2, some 2], [some 2, some 2, some 2],
         [some 4, none, some 8], 3⟩
        (fun _ _ => none)).isSome = true)
    ∧ (fetch_single_ticker "INFY.NS" true ⟨"INR", "Infosys", "IT", "IT"⟩
        ⟨["Open", "High", "Low", "Close", "Volume"],
         [some 2, some 2, some 2], [some 2, some 2, some 2],
         [some 2, some 2, some 2], [some 2, some 2, some 2],
         [some 4, none, some 8], 3⟩
        (fun _ _ => none)).map TickerData.avg_volume
      = some (pandasMean [some 4, none, some 8]) :=
  ⟨by decide,
   (c1_amended "INFY.NS" true ⟨"INR", "Infosys", "IT", "IT"⟩
     ⟨["Open", "High", "Low", "Close", "Volume"],
      [some 2, some 2, some 2], [some 2, some 2, some 2],
      [some 2, some 2, some 2], [some 2, some 2, some 2],
      [some 4, none, some 8], 3⟩
     (fun _ _ => none) (by decide)).1⟩
